import Mathlib

/-!
Verification of the DJ Beatmatch Encoder (`beatmatch_encoder.py`) against its
natural-language specification.

The development is a shallow embedding of the script:

* BPM values are modelled as exact rationals (the spec speaks of positive
  reals; all BPM values parsed by the program are small integers, for which
  rational and IEEE-754 arithmetic agree on every quantity the claims touch).
* Python `round(x, 2)` is modelled as round-half-to-even on hundredths,
  and `str` of the rounded float as an exact decimal printer that keeps the
  sign of a negative zero (Python `str(round(-0.004, 2)) = "-0.0"`).
* `calculate_pitch_adjustment` returns `Option String`: it raises
  `ZeroDivisionError` when `track_bpm = 0` and `base_bpm ≠ track_bpm`
  (reachable from a filename containing `" - 00."`), modelled as `none`.
* The two regular expressions of the script are embedded as executable
  matchers on `List Char` that follow the backtracking behaviour of
  `re.match` / `re.search` on these patterns.  The classes `\d` and `\s`
  are embedded by the exact code-point tables CPython uses for `str`
  patterns (Unicode decimal digits and Unicode whitespace).
* The filesystem is an external collaborator: directory listings are lists
  of `(name, is_file)` pairs, and the rename primitive is an arbitrary
  state-transformer that may fail (`OSError` is modelled as `none`).
-/

/-- Code points matched by the Python 3 regex class `\s` on `str` patterns
(the Unicode whitespace characters, as matched by CPython `re`). -/
def natIsPySpace (n : ℕ) : Bool :=
  (0x9 ≤ n && n ≤ 0xd) || (0x1c ≤ n && n ≤ 0x20) || n = 0x85 || n = 0xa0 || n = 0x1680 || (0x2000 ≤ n && n ≤ 0x200a) || (0x2028 ≤ n && n ≤ 0x2029) || n = 0x202f || n = 0x205f || n = 0x3000

/-- Membership of a character in the Python regex class `\s`. -/
def isPySpaceB (c : Char) : Bool := natIsPySpace c.toNat

/-- Code points matched by the Python 3 regex class `\d` on `str` patterns:
the Unicode decimal digits (category Nd), as matched by CPython `re`.
Each range is an aligned run of digits with values 0-9. -/
def natIsNd (n : ℕ) : Bool :=
  (0x30 ≤ n && n ≤ 0x39) || (0x660 ≤ n && n ≤ 0x669) || (0x6f0 ≤ n && n ≤ 0x6f9) ||
  (0x7c0 ≤ n && n ≤ 0x7c9) || (0x966 ≤ n && n ≤ 0x96f) || (0x9e6 ≤ n && n ≤ 0x9ef) ||
  (0xa66 ≤ n && n ≤ 0xa6f) || (0xae6 ≤ n && n ≤ 0xaef) || (0xb66 ≤ n && n ≤ 0xb6f) ||
  (0xbe6 ≤ n && n ≤ 0xbef) || (0xc66 ≤ n && n ≤ 0xc6f) || (0xce6 ≤ n && n ≤ 0xcef) ||
  (0xd66 ≤ n && n ≤ 0xd6f) || (0xde6 ≤ n && n ≤ 0xdef) || (0xe50 ≤ n && n ≤ 0xe59) ||
  (0xed0 ≤ n && n ≤ 0xed9) || (0xf20 ≤ n && n ≤ 0xf29) || (0x1040 ≤ n && n ≤ 0x1049) ||
  (0x1090 ≤ n && n ≤ 0x1099) || (0x17e0 ≤ n && n ≤ 0x17e9) || (0x1810 ≤ n && n ≤ 0x1819) ||
  (0x1946 ≤ n && n ≤ 0x194f) || (0x19d0 ≤ n && n ≤ 0x19d9) || (0x1a80 ≤ n && n ≤ 0x1a89) ||
  (0x1a90 ≤ n && n ≤ 0x1a99) || (0x1b50 ≤ n && n ≤ 0x1b59) || (0x1bb0 ≤ n && n ≤ 0x1bb9) ||
  (0x1c40 ≤ n && n ≤ 0x1c49) || (0x1c50 ≤ n && n ≤ 0x1c59) || (0xa620 ≤ n && n ≤ 0xa629) ||
  (0xa8d0 ≤ n && n ≤ 0xa8d9) || (0xa900 ≤ n && n ≤ 0xa909) || (0xa9d0 ≤ n && n ≤ 0xa9d9) ||
  (0xa9f0 ≤ n && n ≤ 0xa9f9) || (0xaa50 ≤ n && n ≤ 0xaa59) || (0xabf0 ≤ n && n ≤ 0xabf9) ||
  (0xff10 ≤ n && n ≤ 0xff19) || (0x104a0 ≤ n && n ≤ 0x104a9) || (0x10d30 ≤ n && n ≤ 0x10d39) ||
  (0x11066 ≤ n && n ≤ 0x1106f) || (0x110f0 ≤ n && n ≤ 0x110f9) || (0x11136 ≤ n && n ≤ 0x1113f) ||
  (0x111d0 ≤ n && n ≤ 0x111d9) || (0x112f0 ≤ n && n ≤ 0x112f9) || (0x11450 ≤ n && n ≤ 0x11459) ||
  (0x114d0 ≤ n && n ≤ 0x114d9) || (0x11650 ≤ n && n ≤ 0x11659) || (0x116c0 ≤ n && n ≤ 0x116c9) ||
  (0x11730 ≤ n && n ≤ 0x11739) || (0x118e0 ≤ n && n ≤ 0x118e9) || (0x11950 ≤ n && n ≤ 0x11959) ||
  (0x11c50 ≤ n && n ≤ 0x11c59) || (0x11d50 ≤ n && n ≤ 0x11d59) || (0x11da0 ≤ n && n ≤ 0x11da9) ||
  (0x16a60 ≤ n && n ≤ 0x16a69) || (0x16ac0 ≤ n && n ≤ 0x16ac9) || (0x16b50 ≤ n && n ≤ 0x16b59) ||
  (0x1d7ce ≤ n && n ≤ 0x1d7ff) || (0x1e140 ≤ n && n ≤ 0x1e149) || (0x1e2f0 ≤ n && n ≤ 0x1e2f9) ||
  (0x1e950 ≤ n && n ≤ 0x1e959) || (0x1fbf0 ≤ n && n ≤ 0x1fbf9)

/-- Membership of a character in the Python regex class `\d`. -/
def isPyDigit (c : Char) : Bool := natIsNd c.toNat

/-- Decimal value of a code point from the `\d` table (0 outside it);
`float` parses Unicode decimal digits by these values. -/
def pyNdVal (n : ℕ) : ℕ :=
  if 0x30 ≤ n && n ≤ 0x39 then (n - 0x30) % 10
  else if 0x660 ≤ n && n ≤ 0x669 then (n - 0x660) % 10
  else if 0x6f0 ≤ n && n ≤ 0x6f9 then (n - 0x6f0) % 10
  else if 0x7c0 ≤ n && n ≤ 0x7c9 then (n - 0x7c0) % 10
  else if 0x966 ≤ n && n ≤ 0x96f then (n - 0x966) % 10
  else if 0x9e6 ≤ n && n ≤ 0x9ef then (n - 0x9e6) % 10
  else if 0xa66 ≤ n && n ≤ 0xa6f then (n - 0xa66) % 10
  else if 0xae6 ≤ n && n ≤ 0xaef then (n - 0xae6) % 10
  else if 0xb66 ≤ n && n ≤ 0xb6f then (n - 0xb66) % 10
  else if 0xbe6 ≤ n && n ≤ 0xbef then (n - 0xbe6) % 10
  else if 0xc66 ≤ n && n ≤ 0xc6f then (n - 0xc66) % 10
  else if 0xce6 ≤ n && n ≤ 0xcef then (n - 0xce6) % 10
  else if 0xd66 ≤ n && n ≤ 0xd6f then (n - 0xd66) % 10
  else if 0xde6 ≤ n && n ≤ 0xdef then (n - 0xde6) % 10
  else if 0xe50 ≤ n && n ≤ 0xe59 then (n - 0xe50) % 10
  else if 0xed0 ≤ n && n ≤ 0xed9 then (n - 0xed0) % 10
  else if 0xf20 ≤ n && n ≤ 0xf29 then (n - 0xf20) % 10
  else if 0x1040 ≤ n && n ≤ 0x1049 then (n - 0x1040) % 10
  else if 0x1090 ≤ n && n ≤ 0x1099 then (n - 0x1090) % 10
  else if 0x17e0 ≤ n && n ≤ 0x17e9 then (n - 0x17e0) % 10
  else if 0x1810 ≤ n && n ≤ 0x1819 then (n - 0x1810) % 10
  else if 0x1946 ≤ n && n ≤ 0x194f then (n - 0x1946) % 10
  else if 0x19d0 ≤ n && n ≤ 0x19d9 then (n - 0x19d0) % 10
  else if 0x1a80 ≤ n && n ≤ 0x1a89 then (n - 0x1a80) % 10
  else if 0x1a90 ≤ n && n ≤ 0x1a99 then (n - 0x1a90) % 10
  else if 0x1b50 ≤ n && n ≤ 0x1b59 then (n - 0x1b50) % 10
  else if 0x1bb0 ≤ n && n ≤ 0x1bb9 then (n - 0x1bb0) % 10
  else if 0x1c40 ≤ n && n ≤ 0x1c49 then (n - 0x1c40) % 10
  else if 0x1c50 ≤ n && n ≤ 0x1c59 then (n - 0x1c50) % 10
  else if 0xa620 ≤ n && n ≤ 0xa629 then (n - 0xa620) % 10
  else if 0xa8d0 ≤ n && n ≤ 0xa8d9 then (n - 0xa8d0) % 10
  else if 0xa900 ≤ n && n ≤ 0xa909 then (n - 0xa900) % 10
  else if 0xa9d0 ≤ n && n ≤ 0xa9d9 then (n - 0xa9d0) % 10
  else if 0xa9f0 ≤ n && n ≤ 0xa9f9 then (n - 0xa9f0) % 10
  else if 0xaa50 ≤ n && n ≤ 0xaa59 then (n - 0xaa50) % 10
  else if 0xabf0 ≤ n && n ≤ 0xabf9 then (n - 0xabf0) % 10
  else if 0xff10 ≤ n && n ≤ 0xff19 then (n - 0xff10) % 10
  else if 0x104a0 ≤ n && n ≤ 0x104a9 then (n - 0x104a0) % 10
  else if 0x10d30 ≤ n && n ≤ 0x10d39 then (n - 0x10d30) % 10
  else if 0x11066 ≤ n && n ≤ 0x1106f then (n - 0x11066) % 10
  else if 0x110f0 ≤ n && n ≤ 0x110f9 then (n - 0x110f0) % 10
  else if 0x11136 ≤ n && n ≤ 0x1113f then (n - 0x11136) % 10
  else if 0x111d0 ≤ n && n ≤ 0x111d9 then (n - 0x111d0) % 10
  else if 0x112f0 ≤ n && n ≤ 0x112f9 then (n - 0x112f0) % 10
  else if 0x11450 ≤ n && n ≤ 0x11459 then (n - 0x11450) % 10
  else if 0x114d0 ≤ n && n ≤ 0x114d9 then (n - 0x114d0) % 10
  else if 0x11650 ≤ n && n ≤ 0x11659 then (n - 0x11650) % 10
  else if 0x116c0 ≤ n && n ≤ 0x116c9 then (n - 0x116c0) % 10
  else if 0x11730 ≤ n && n ≤ 0x11739 then (n - 0x11730) % 10
  else if 0x118e0 ≤ n && n ≤ 0x118e9 then (n - 0x118e0) % 10
  else if 0x11950 ≤ n && n ≤ 0x11959 then (n - 0x11950) % 10
  else if 0x11c50 ≤ n && n ≤ 0x11c59 then (n - 0x11c50) % 10
  else if 0x11d50 ≤ n && n ≤ 0x11d59 then (n - 0x11d50) % 10
  else if 0x11da0 ≤ n && n ≤ 0x11da9 then (n - 0x11da0) % 10
  else if 0x16a60 ≤ n && n ≤ 0x16a69 then (n - 0x16a60) % 10
  else if 0x16ac0 ≤ n && n ≤ 0x16ac9 then (n - 0x16ac0) % 10
  else if 0x16b50 ≤ n && n ≤ 0x16b59 then (n - 0x16b50) % 10
  else if 0x1d7ce ≤ n && n ≤ 0x1d7ff then (n - 0x1d7ce) % 10
  else if 0x1e140 ≤ n && n ≤ 0x1e149 then (n - 0x1e140) % 10
  else if 0x1e2f0 ≤ n && n ≤ 0x1e2f9 then (n - 0x1e2f0) % 10
  else if 0x1e950 ≤ n && n ≤ 0x1e959 then (n - 0x1e950) % 10
  else if 0x1fbf0 ≤ n && n ≤ 0x1fbf9 then (n - 0x1fbf0) % 10
  else 0

/-- Numeric value of a captured digit character. -/
def digitVal (c : Char) : ℕ := pyNdVal c.toNat

/-- Fuel-driven core of the decimal printer for natural numbers. -/
def natDecimalCore : ℕ → ℕ → List Char → List Char
  | 0, _, acc => acc
  | fuel + 1, n, acc =>
    if n < 10 then Char.ofNat (48 + n) :: acc
    else natDecimalCore fuel (n / 10) (Char.ofNat (48 + n % 10) :: acc)

/-- Decimal digit string of a natural number, as Python `str` prints it. -/
def natDecimal (n : ℕ) : List Char := natDecimalCore (n + 1) n []

/-- Fraction digits printed by Python `str` for a float that is an exact
multiple of 1/100: `fr` is the value in hundredths modulo 100.  A trailing
zero in the hundredths place is dropped (`4.50` prints as `"4.5"`,
`4.00` as `"4.0"`), a leading fractional zero is kept (`"4.05"`). -/
def fracPart (fr : ℕ) : List Char :=
  if fr = 0 then ['0']
  else if fr % 10 = 0 then natDecimal (fr / 10)
  else if fr < 10 then '0' :: natDecimal fr
  else natDecimal fr

/-- Decimal string of the number `z / 100` (`z` an integer count of
hundredths), as Python `str` prints the corresponding float. -/
def formatHundredths (z : ℤ) : List Char :=
  (if z < 0 then ['-'] else []) ++ natDecimal (z.natAbs / 100) ++ '.' :: fracPart (z.natAbs % 100)

/-- Round-half-to-even of a rational to an integer, the rounding used by
Python `round`. -/
def roundHalfEven (q : ℚ) : ℤ :=
  let n := ⌊q⌋
  let f := q - n
  if f < 1 / 2 then n
  else if 1 / 2 < f then n + 1
  else if n % 2 = 0 then n else n + 1

/-- Model of Python `str(round(p, 2))`: round `p` to hundredths with
round-half-to-even and print the result, keeping the `-` sign when a
negative value rounds to zero (Python returns the float `-0.0` there).
The printer is the plain-decimal form, faithful while the rounded value
stays below 10^16 in magnitude; beyond that threshold Python `str`
switches to scientific notation of the underlying double, which this
exact-rational embedding does not model. -/
def pyFloatStr2 (p : ℚ) : List Char :=
  let z := roundHalfEven (100 * p)
  if z = 0 ∧ p < 0 then ['-', '0', '.', '0'] else formatHundredths z

/-- Embedding of `calculate_pitch_adjustment` (beatmatch_encoder.py, lines
44-64).  Returns `none` for the `ZeroDivisionError` raised when
`track_bpm = 0` and the two BPM values differ. -/
def calculate_pitch_adjustment (track_bpm base_bpm : ℚ) : Option String :=
  if base_bpm = track_bpm then some "0"
  else if track_bpm = 0 then none
  else
    let percentage := (base_bpm - track_bpm) / track_bpm * 100
    if 0 < percentage then some ⟨'+' :: pyFloatStr2 percentage⟩
    else some ⟨pyFloatStr2 percentage⟩

/-- Embedding of `TRACK_NUMBER_PATTERN = re.compile(r"^(\d+\.?\s)")` applied
after the digit run: matches `\.?\s` at the start of `l`, with the
backtracking of `re.match` (if a period is consumed but no whitespace
follows, the optional period is dropped and `\s` is retried on the period
itself).  Parameterized by the character class `ws` used for `\s`. -/
def afterDigitsWith (ws : Char → Bool) (l : List Char) : Option (List Char) :=
  match l with
  | [] => none
  | c :: rest =>
    if c = '.' then
      match rest with
      | w :: _ => if ws w then some ['.', w] else if ws '.' then some ['.'] else none
      | [] => if ws '.' then some ['.'] else none
    else if ws c then some [c] else none

/-- Leading track-number match `^(\d+\.?\s)`: a maximal nonempty run of
digits, then `\.?\s` via `afterDigitsWith`.  Returns the matched group. -/
def trackNumberMatchWith (ws : Char → Bool) (s : List Char) : Option (List Char) :=
  let ds := s.takeWhile isPyDigit
  if ds = [] then none
  else
    match afterDigitsWith ws (s.dropWhile isPyDigit) with
    | some tail => some (ds ++ tail)
    | none => none

/-- Insertion of the adjustment into the filename, parameterized by the
whitespace class of the track-number pattern. -/
def composeWith (ws : Char → Bool) (original_name pitch_adjustment : String) : String :=
  match trackNumberMatchWith ws original_name.data with
  | some pfx => ⟨pfx ++ '(' :: pitch_adjustment.data ++ ')' :: ' ' :: original_name.data.drop pfx.length⟩
  | none => ⟨'(' :: pitch_adjustment.data ++ ')' :: ' ' :: original_name.data⟩

/-- Embedding of `generate_new_filename` (beatmatch_encoder.py, lines
67-90), with `\s` modelled by `isPySpaceB`. -/
def generate_new_filename (original_name pitch_adjustment : String) : String :=
  composeWith isPySpaceB original_name pitch_adjustment

/-- Variant of the composer following the specification text of §4.2
literally: the track-number pattern requires exactly one space character
(rather than the regex class `\s`). -/
def compose_space_only (original_name pitch_adjustment : String) : String :=
  composeWith (fun c => c = ' ') original_name pitch_adjustment

/-- Digit part of `BPM_PATTERN = re.compile(r"\s-\s(\d{2,3})\.")`: greedy
match of 2-3 digits followed by a literal period, with the backtracking of
the regex engine (3 digits are tried before 2). -/
def bpmDigits (l : List Char) : Option ℕ :=
  match l with
  | d1 :: d2 :: rest2 =>
    if isPyDigit d1 && isPyDigit d2 then
      match rest2 with
      | [] => none
      | d3 :: rest3 =>
        if isPyDigit d3 then
          match rest3 with
          | c4 :: _ =>
            if c4 = '.' then some (100 * digitVal d1 + 10 * digitVal d2 + digitVal d3)
            else none
          | [] => none
        else if d3 = '.' then some (10 * digitVal d1 + digitVal d2)
        else none
    else none
  | _ => none

/-- One anchored attempt of `BPM_PATTERN` at the head of `l`:
whitespace, hyphen, whitespace, then `bpmDigits`. -/
def bpmTryHere (l : List Char) : Option ℕ :=
  match l with
  | w1 :: c :: w2 :: rest =>
    if isPySpaceB w1 && c = '-' && isPySpaceB w2 then bpmDigits rest else none
  | _ => none

/-- Embedding of `BPM_PATTERN.search`: leftmost match, scanning positions
from the start of the string.  Returns the captured BPM digits as a
natural number (`float(match.group(1))` parses them exactly). -/
def bpmSearch : List Char → Option ℕ
  | [] => none
  | c :: rest =>
    match bpmTryHere (c :: rest) with
    | some n => some n
    | none => bpmSearch rest

/-- Embedding of the `TrackInfo` NamedTuple (beatmatch_encoder.py, lines
34-41).  Paths are directory-relative names. -/
structure TrackInfo where
  original_path : String
  original_name : String
  bpm : ℚ
  pitch_adjustment : String
  new_name : String
deriving DecidableEq

/-- Embedding of `scan_directory` (beatmatch_encoder.py, lines 93-132).
The directory listing is a list of `(name, is_file)` pairs in filesystem
iteration order.  A `ZeroDivisionError` escaping from
`calculate_pitch_adjustment` aborts the whole scan (`none`).  The
`try/except ValueError` around `float` never fires, because the captured
group consists of digits only. -/
def scan_directory : List (String × Bool) → ℚ → Option (List TrackInfo)
  | [], _ => some []
  | (name, is_file) :: rest, base_bpm =>
    if is_file = false then scan_directory rest base_bpm
    else
      match bpmSearch name.data with
      | none => scan_directory rest base_bpm
      | some n =>
        match calculate_pitch_adjustment (n : ℚ) base_bpm with
        | none => none
        | some adj =>
          match scan_directory rest base_bpm with
          | none => none
          | some tracks =>
            some (⟨name, name, (n : ℚ), adj, generate_new_filename name adj⟩ :: tracks)

/-- Embedding of `rename_tracks` (beatmatch_encoder.py, lines 135-167).
The filesystem is an abstract state `σ`; `op fs old new` is the rename
collaborator, returning `none` when `Path.rename` raises `OSError`.
Returns the count of processed records and the final filesystem state. -/
def rename_tracks {σ : Type} (op : σ → String → String → Option σ) :
    List TrackInfo → Bool → σ → ℕ × σ
  | [], _, fs => (0, fs)
  | t :: ts, dry_run, fs =>
    if dry_run then
      let r := rename_tracks op ts dry_run fs
      (r.1 + 1, r.2)
    else
      match op fs t.original_path t.new_name with
      | some fs' =>
        let r := rename_tracks op ts dry_run fs'
        (r.1 + 1, r.2)
      | none => rename_tracks op ts dry_run fs

/-- Outcome trace of a non-dry-run pass of `rename_tracks`: one boolean
per record, `true` when the rename collaborator succeeded on that record
in the filesystem state reached at that point. -/
def renameOutcomes {σ : Type} (op : σ → String → String → Option σ) :
    List TrackInfo → σ → List Bool
  | [], _ => []
  | t :: ts, fs =>
    match op fs t.original_path t.new_name with
    | some fs' => true :: renameOutcomes op ts fs'
    | none => false :: renameOutcomes op ts fs

/-- Concrete rename collaborator used for witnesses: the filesystem is the
list of present names; a rename succeeds when the source exists and the
target does not. -/
def listRenameOp (fs : List String) (old new : String) : Option (List String) :=
  if fs.contains old && !fs.contains new then some (new :: fs.erase old) else none

namespace BeatmatchEncoder

/-- Embedding of `main` (beatmatch_encoder.py, lines 236-276) after
argument parsing: directory validation, BPM validation, scan, and rename,
returning the exit code and the final filesystem state.  `none` models the
process dying on an uncaught exception. -/
def main {σ : Type} (op : σ → String → String → Option σ)
    (dir_exists dir_is_dir : Bool) (base_bpm : ℚ)
    (entries : List (String × Bool)) (dry_run : Bool) (fs : σ) :
    Option (ℕ × σ) :=
  if dir_exists = false then some (1, fs)
  else if dir_is_dir = false then some (1, fs)
  else if base_bpm ≤ 0 then some (1, fs)
  else
    match scan_directory entries base_bpm with
    | none => none
    | some tracks =>
      if tracks = [] then some (0, fs)
      else some (0, (rename_tracks op tracks dry_run fs).2)

end BeatmatchEncoder

/-- Pitch-adjustment string as described by §4.1 of the specification:
compute the percentage, then format the rounded value with a leading `+`
when the percentage is positive and with no added sign when it is
negative (the printed value carries its own `-`).  The specification
leaves the `percentage = 0` case to the dedicated equal-BPM rule, so that
branch is marked unspecified here. -/
def spec_pitch_adjustment (track_bpm base_bpm : ℚ) : String :=
  let percentage := (base_bpm - track_bpm) / track_bpm * 100
  if 0 < percentage then ⟨'+' :: pyFloatStr2 percentage⟩
  else if percentage < 0 then ⟨pyFloatStr2 percentage⟩
  else "unspecified"

/-- Recognizer for a signed decimal: a leading `+` or `-`, a nonempty run
of digits, a period, and a nonempty run of digits. -/
def isSignedDec (l : List Char) : Bool :=
  match l with
  | c :: rest =>
    (c = '+' || c = '-') && !(rest.takeWhile Char.isDigit).isEmpty &&
    (match rest.dropWhile Char.isDigit with
     | '.' :: fs => !fs.isEmpty && fs.all Char.isDigit
     | _ => false)
  | [] => false

/-- Number of characters after the integer part and its following
separator; for a well-formed signed decimal this is the number of
fraction digits. -/
def fracCount (l : List Char) : ℕ :=
  match l with
  | _ :: rest =>
    match rest.dropWhile Char.isDigit with
    | _ :: fs => fs.length
    | [] => 0
  | [] => 0

/-! ### Evaluation lemmas

Batteries marks rational arithmetic `@[irreducible]`, so concrete instances
are evaluated through the following lemmas, whose side conditions are pure
rational arithmetic dischargeable by `norm_num`. -/

theorem roundHalfEven_eq_of_close (z : ℤ) (q : ℚ)
    (h1 : (z : ℚ) - 1 / 2 < q) (h2 : q < (z : ℚ) + 1 / 2) :
    roundHalfEven q = z := by
  rcases le_or_lt (z : ℚ) q with hle | hlt
  · have hfl : ⌊q⌋ = z := Int.floor_eq_iff.mpr ⟨hle, by linarith⟩
    have hf : q - (⌊q⌋ : ℚ) < 1 / 2 := by rw [hfl]; linarith
    simp only [roundHalfEven, if_pos hf]
    exact hfl
  · have hfl : ⌊q⌋ = z - 1 := Int.floor_eq_iff.mpr ⟨by push_cast; linarith, by push_cast; linarith⟩
    have hf : ¬ q - (⌊q⌋ : ℚ) < 1 / 2 := by rw [hfl]; push_cast; linarith
    have hf2 : 1 / 2 < q - (⌊q⌋ : ℚ) := by rw [hfl]; push_cast; linarith
    simp only [roundHalfEven, if_neg hf, if_pos hf2]
    omega

theorem roundHalfEven_nonneg (q : ℚ) (h : 0 ≤ q) : 0 ≤ roundHalfEven q := by
  have hn : (0 : ℤ) ≤ ⌊q⌋ := Int.floor_nonneg.mpr h
  simp only [roundHalfEven]
  split_ifs <;> omega

theorem roundHalfEven_nonpos (q : ℚ) (h : q ≤ 0) : roundHalfEven q ≤ 0 := by
  have hn : ⌊q⌋ ≤ 0 := by
    have := Int.floor_le_floor (α := ℚ) h
    simpa using this
  simp only [roundHalfEven]
  split_ifs with hf1 hf2 hf3
  · exact hn
  · have h1 : (1 : ℚ) / 2 ≤ q - (⌊q⌋ : ℚ) := not_lt.mp hf1
    have h3 : (⌊q⌋ : ℚ) < 0 := by linarith
    have h4 : ⌊q⌋ < 0 := by exact_mod_cast h3
    omega
  · exact hn
  · have h1 : (1 : ℚ) / 2 ≤ q - (⌊q⌋ : ℚ) := not_lt.mp hf1
    have h3 : (⌊q⌋ : ℚ) < 0 := by linarith
    have h4 : ⌊q⌋ < 0 := by exact_mod_cast h3
    omega

theorem pyFloatStr2_of_pos (p : ℚ) (hp : 0 < p) :
    pyFloatStr2 p = formatHundredths (roundHalfEven (100 * p)) := by
  have hcond : ¬ (roundHalfEven (100 * p) = 0 ∧ p < 0) := by
    rintro ⟨-, hneg⟩
    exact absurd hp (not_lt.mpr hneg.le)
  simp only [pyFloatStr2, if_neg hcond]

theorem pyFloatStr2_of_neg_ne (p : ℚ) (hz : ¬ roundHalfEven (100 * p) = 0) :
    pyFloatStr2 p = formatHundredths (roundHalfEven (100 * p)) := by
  have hcond : ¬ (roundHalfEven (100 * p) = 0 ∧ p < 0) := fun h => hz h.1
  simp only [pyFloatStr2, if_neg hcond]

theorem pyFloatStr2_neg_zero (p : ℚ) (hz : roundHalfEven (100 * p) = 0) (hp : p < 0) :
    pyFloatStr2 p = ['-', '0', '.', '0'] := by
  simp only [pyFloatStr2, if_pos (And.intro hz hp)]

theorem calc_pos_eval (t b : ℚ) (hne : ¬ b = t) (ht : ¬ t = 0)
    (hpos : 0 < (b - t) / t * 100) :
    calculate_pitch_adjustment t b = some ⟨'+' :: pyFloatStr2 ((b - t) / t * 100)⟩ := by
  simp only [calculate_pitch_adjustment, if_neg hne, if_neg ht, if_pos hpos]

theorem calc_neg_eval (t b : ℚ) (hne : ¬ b = t) (ht : ¬ t = 0)
    (hneg : ¬ 0 < (b - t) / t * 100) :
    calculate_pitch_adjustment t b = some ⟨pyFloatStr2 ((b - t) / t * 100)⟩ := by
  simp only [calculate_pitch_adjustment, if_neg hne, if_neg ht, if_neg hneg]

theorem calc_concrete_pos (t b : ℚ) (z : ℤ) (l : List Char)
    (hne : ¬ b = t) (ht : ¬ t = 0) (hpos : 0 < (b - t) / t * 100)
    (hz : roundHalfEven (100 * ((b - t) / t * 100)) = z)
    (hl : formatHundredths z = l) :
    calculate_pitch_adjustment t b = some ⟨'+' :: l⟩ := by
  rw [calc_pos_eval t b hne ht hpos, pyFloatStr2_of_pos _ hpos, hz, hl]

theorem calc_concrete_neg (t b : ℚ) (z : ℤ) (l : List Char)
    (hne : ¬ b = t) (ht : ¬ t = 0) (hneg : ¬ 0 < (b - t) / t * 100)
    (hz : roundHalfEven (100 * ((b - t) / t * 100)) = z) (hz0 : ¬ z = 0)
    (hl : formatHundredths z = l) :
    calculate_pitch_adjustment t b = some ⟨l⟩ := by
  rw [calc_neg_eval t b hne ht hneg, pyFloatStr2_of_neg_ne _ (by rw [hz]; exact hz0), hz, hl]

/-! ### Structural helper lemmas -/

theorem takeWhile_all_append (p : Char → Bool) (l : List Char) (c : Char) (r : List Char)
    (hl : ∀ x ∈ l, p x = true) (hc : p c = false) :
    (l ++ c :: r).takeWhile p = l := by
  induction l with
  | nil => simp [List.takeWhile_cons, hc]
  | cons a as ih =>
    have ha : p a = true := hl a (List.mem_cons_self a as)
    have has : ∀ x ∈ as, p x = true := fun x hx => hl x (List.mem_cons_of_mem a hx)
    simp [List.takeWhile_cons, ha, ih has]

theorem dropWhile_all_append (p : Char → Bool) (l : List Char) (c : Char) (r : List Char)
    (hl : ∀ x ∈ l, p x = true) (hc : p c = false) :
    (l ++ c :: r).dropWhile p = c :: r := by
  induction l with
  | nil => simp [List.dropWhile_cons, hc]
  | cons a as ih =>
    have ha : p a = true := hl a (List.mem_cons_self a as)
    have has : ∀ x ∈ as, p x = true := fun x hx => hl x (List.mem_cons_of_mem a hx)
    simp [List.dropWhile_cons, ha, ih has]

theorem char_ofNat_digit (m : ℕ) (h : m < 10) : (Char.ofNat (48 + m)).isDigit = true := by
  interval_cases m <;> decide

theorem natDecimalCore_digits (fuel : ℕ) : ∀ (n : ℕ) (acc : List Char),
    (∀ c ∈ acc, c.isDigit = true) → ∀ c ∈ natDecimalCore fuel n acc, c.isDigit = true := by
  induction fuel with
  | zero => intro n acc hacc c hc; exact hacc c hc
  | succ fuel ih =>
    intro n acc hacc c hc
    by_cases hn : n < 10
    · simp only [natDecimalCore, if_pos hn] at hc
      rcases List.mem_cons.mp hc with rfl | hmem
      · exact char_ofNat_digit n hn
      · exact hacc c hmem
    · simp only [natDecimalCore, if_neg hn] at hc
      refine ih (n / 10) _ ?_ c hc
      intro x hx
      rcases List.mem_cons.mp hx with rfl | hmem
      · exact char_ofNat_digit (n % 10) (Nat.mod_lt n (by norm_num))
      · exact hacc x hmem

theorem natDecimal_digits (n : ℕ) : ∀ c ∈ natDecimal n, c.isDigit = true :=
  natDecimalCore_digits (n + 1) n [] (by simp)

theorem natDecimalCore_ne_nil (fuel : ℕ) : ∀ (n : ℕ) (acc : List Char),
    acc ≠ [] → natDecimalCore fuel n acc ≠ [] := by
  induction fuel with
  | zero => intro n acc hacc; exact hacc
  | succ fuel ih =>
    intro n acc hacc
    by_cases hn : n < 10
    · simp [natDecimalCore, if_pos hn]
    · simp only [natDecimalCore, if_neg hn]
      exact ih (n / 10) _ (by simp)

theorem natDecimal_ne_nil (n : ℕ) : natDecimal n ≠ [] := by
  unfold natDecimal
  by_cases hn : n < 10
  · simp [natDecimalCore, if_pos hn]
  · simp only [natDecimalCore, if_neg hn]
    exact natDecimalCore_ne_nil n (n / 10) _ (by simp)

theorem natDecimal_small (n : ℕ) (h : n < 10) : natDecimal n = [Char.ofNat (48 + n)] := by
  simp [natDecimal, natDecimalCore, if_pos h]

theorem natDecimal_two_digits (n : ℕ) (h1 : 10 ≤ n) (h2 : n < 100) :
    natDecimal n = [Char.ofNat (48 + n / 10), Char.ofNat (48 + n % 10)] := by
  obtain ⟨m, rfl⟩ : ∃ m, n = m + 1 := ⟨n - 1, by omega⟩
  have hn : ¬ m + 1 < 10 := by omega
  have hd : (m + 1) / 10 < 10 := by omega
  simp [natDecimal, natDecimalCore, if_neg hn, if_pos hd]

theorem fracPart_digits (fr : ℕ) : ∀ c ∈ fracPart fr, c.isDigit = true := by
  intro c hc
  unfold fracPart at hc
  split_ifs at hc with h0 h10 hlt
  · simp at hc; subst hc; decide
  · exact natDecimal_digits _ c hc
  · rcases List.mem_cons.mp hc with rfl | hmem
    · decide
    · exact natDecimal_digits _ c hmem
  · exact natDecimal_digits _ c hc

theorem fracPart_ne_nil (fr : ℕ) : fracPart fr ≠ [] := by
  unfold fracPart
  split_ifs with h0 h10 hlt
  · simp
  · exact natDecimal_ne_nil _
  · simp
  · exact natDecimal_ne_nil _

theorem fracPart_len (fr : ℕ) (h : fr < 100) :
    (fracPart fr).length = 1 ∨ (fracPart fr).length = 2 := by
  unfold fracPart
  split_ifs with h0 h10 hlt
  · left; simp
  · left
    rw [natDecimal_small (fr / 10) (by omega)]
    simp
  · right
    rw [natDecimal_small fr hlt]
    simp
  · right
    rw [natDecimal_two_digits fr (by omega) h]
    simp

theorem formatHundredths_of_nonneg (z : ℤ) (h : 0 ≤ z) :
    formatHundredths z = natDecimal (z.natAbs / 100) ++ '.' :: fracPart (z.natAbs % 100) := by
  simp [formatHundredths, not_lt.mpr h]

theorem formatHundredths_of_neg (z : ℤ) (h : z < 0) :
    formatHundredths z = '-' :: (natDecimal (z.natAbs / 100) ++ '.' :: fracPart (z.natAbs % 100)) := by
  simp [formatHundredths, h]

theorem dot_mem_formatHundredths (z : ℤ) : '.' ∈ formatHundredths z := by
  simp [formatHundredths]

theorem isSignedDec_of_parts (sgn : Char) (hs : sgn = '+' ∨ sgn = '-') (ip fp : List Char)
    (hip : ∀ c ∈ ip, c.isDigit = true) (hipne : ip ≠ [])
    (hfp : ∀ c ∈ fp, c.isDigit = true) (hfpne : fp ≠ []) :
    isSignedDec (sgn :: (ip ++ '.' :: fp)) = true := by
  have htake : (ip ++ '.' :: fp).takeWhile Char.isDigit = ip :=
    takeWhile_all_append _ ip '.' fp hip (by decide)
  have hdrop : (ip ++ '.' :: fp).dropWhile Char.isDigit = '.' :: fp :=
    dropWhile_all_append _ ip '.' fp hip (by decide)
  have hsgn : (sgn = '+' || sgn = '-') = true := by
    rcases hs with rfl | rfl <;> decide
  have hip2 : ip.isEmpty = false := by
    cases ip with
    | nil => exact absurd rfl hipne
    | cons a as => rfl
  have hfp2 : fp.isEmpty = false := by
    cases fp with
    | nil => exact absurd rfl hfpne
    | cons a as => rfl
  have hall : fp.all Char.isDigit = true := List.all_eq_true.mpr hfp
  simp [isSignedDec, htake, hdrop, hsgn, hip2, hfp2, hall]

theorem fracCount_of_parts (sgn : Char) (ip fp : List Char)
    (hip : ∀ c ∈ ip, c.isDigit = true) :
    fracCount (sgn :: (ip ++ '.' :: fp)) = fp.length := by
  have hdrop : (ip ++ '.' :: fp).dropWhile Char.isDigit = '.' :: fp :=
    dropWhile_all_append _ ip '.' fp hip (by decide)
  simp [fracCount, hdrop]

/-! ### Sign of the percentage -/

theorem percentage_eq_zero_iff (t b : ℚ) (ht : t ≠ 0) :
    (b - t) / t * 100 = 0 ↔ b = t := by
  rw [mul_eq_zero, div_eq_zero_iff]
  constructor
  · rintro ((h1 | h2) | h3)
    · linarith [sub_eq_zero.mp h1]
    · exact absurd h2 ht
    · norm_num at h3
  · intro hbt
    left; left; rw [hbt, sub_self]

theorem percentage_pos_iff (t b : ℚ) (ht : 0 < t) : 0 < (b - t) / t * 100 ↔ t < b := by
  constructor
  · intro h
    by_contra hbt
    push_neg at hbt
    have h1 : b - t ≤ 0 := by linarith
    have h2 : (b - t) / t ≤ 0 := div_nonpos_iff.mpr (Or.inr ⟨h1, ht.le⟩)
    have h3 : (b - t) / t * 100 ≤ 0 :=
      mul_nonpos_of_nonpos_of_nonneg h2 (by norm_num)
    linarith
  · intro h
    have h1 : 0 < b - t := by linarith
    exact mul_pos (div_pos h1 ht) (by norm_num)

theorem calc_format (t b : ℚ) (adj : String)
    (h : calculate_pitch_adjustment t b = some adj) :
    adj = "0" ∨ (isSignedDec adj.data = true ∧ (fracCount adj.data = 1 ∨ fracCount adj.data = 2)) := by
  by_cases hbt : b = t
  · left
    simp only [calculate_pitch_adjustment, if_pos hbt, Option.some.injEq] at h
    exact h.symm
  by_cases ht : t = 0
  · subst ht
    simp [calculate_pitch_adjustment, hbt] at h
  right
  set p : ℚ := (b - t) / t * 100 with hp
  have hpne : p ≠ 0 := fun h0 => hbt ((percentage_eq_zero_iff t b ht).mp h0)
  by_cases hpos : 0 < p
  · have hcalc := calc_pos_eval t b hbt ht hpos
    rw [hcalc, Option.some.injEq] at h
    subst h
    have hz : 0 ≤ roundHalfEven (100 * p) := roundHalfEven_nonneg _ (by positivity)
    have hfmt := formatHundredths_of_nonneg _ hz
    have hdata : (String.mk ('+' :: pyFloatStr2 p)).data = '+' :: pyFloatStr2 p := rfl
    rw [hdata, pyFloatStr2_of_pos _ hpos, hfmt]
    refine ⟨isSignedDec_of_parts '+' (Or.inl rfl) _ _ (natDecimal_digits _) (natDecimal_ne_nil _)
      (fracPart_digits _) (fracPart_ne_nil _), ?_⟩
    rw [fracCount_of_parts '+' _ _ (natDecimal_digits _)]
    have hlt : (roundHalfEven (100 * p)).natAbs % 100 < 100 := Nat.mod_lt _ (by norm_num)
    rcases fracPart_len _ hlt with h1 | h2
    · exact Or.inl h1
    · exact Or.inr h2
  · have hneg : p < 0 := lt_of_le_of_ne (not_lt.mp hpos) hpne
    have hcalc := calc_neg_eval t b hbt ht hpos
    rw [hcalc, Option.some.injEq] at h
    subst h
    by_cases hz0 : roundHalfEven (100 * p) = 0
    · have hstr := pyFloatStr2_neg_zero p hz0 hneg
      have hdata : (String.mk (pyFloatStr2 p)).data = pyFloatStr2 p := rfl
      rw [hdata, hstr]
      exact ⟨by decide, Or.inl (by decide)⟩
    · have hzneg : roundHalfEven (100 * p) < 0 :=
        lt_of_le_of_ne (roundHalfEven_nonpos _ (by nlinarith)) hz0
      have hstr := pyFloatStr2_of_neg_ne p hz0
      have hfmt := formatHundredths_of_neg _ hzneg
      have hdata : (String.mk (pyFloatStr2 p)).data = pyFloatStr2 p := rfl
      rw [hdata, hstr, hfmt]
      refine ⟨isSignedDec_of_parts '-' (Or.inr rfl) _ _ (natDecimal_digits _) (natDecimal_ne_nil _)
        (fracPart_digits _) (fracPart_ne_nil _), ?_⟩
      rw [fracCount_of_parts '-' _ _ (natDecimal_digits _)]
      have hlt : (roundHalfEven (100 * p)).natAbs % 100 < 100 := Nat.mod_lt _ (by norm_num)
      rcases fracPart_len _ hlt with h1 | h2
      · exact Or.inl h1
      · exact Or.inr h2

/-! ### Characterization of the track-number match -/

theorem isPySpace_not_digit (c : Char) (h : isPySpaceB c = true) : isPyDigit c = false := by
  cases hb : isPyDigit c with
  | false => rfl
  | true =>
    exfalso
    simp only [isPySpaceB, natIsPySpace, Bool.or_eq_true, Bool.and_eq_true,
      decide_eq_true_eq] at h
    simp only [isPyDigit, natIsNd, Bool.or_eq_true, Bool.and_eq_true,
      decide_eq_true_eq] at hb
    omega

theorem isPySpace_ne_dot (c : Char) (h : isPySpaceB c = true) : ¬ c = '.' := by
  intro hc
  subst hc
  exact absurd h (by decide)

theorem trackNumberMatch_of_decomp (ds opt : List Char) (w : Char) (rest : List Char)
    (hne : ds ≠ []) (hdig : ∀ c ∈ ds, isPyDigit c = true)
    (hopt : opt = [] ∨ opt = ['.']) (hw : isPySpaceB w = true) :
    trackNumberMatchWith isPySpaceB (ds ++ opt ++ (w :: rest)) = some (ds ++ opt ++ [w]) := by
  rcases hopt with rfl | rfl
  · have htake : (ds ++ [] ++ (w :: rest)).takeWhile isPyDigit = ds := by
      rw [List.append_nil]
      exact takeWhile_all_append _ ds w rest hdig (isPySpace_not_digit w hw)
    have hdrop : (ds ++ [] ++ (w :: rest)).dropWhile isPyDigit = w :: rest := by
      rw [List.append_nil]
      exact dropWhile_all_append _ ds w rest hdig (isPySpace_not_digit w hw)
    simp only [trackNumberMatchWith, htake, hdrop, if_neg hne]
    simp only [afterDigitsWith, if_neg (isPySpace_ne_dot w hw), if_pos hw]
    simp
  · have hassoc : ds ++ ['.'] ++ (w :: rest) = ds ++ '.' :: (w :: rest) := by simp
    have htake : (ds ++ ['.'] ++ (w :: rest)).takeWhile isPyDigit = ds := by
      rw [hassoc]
      exact takeWhile_all_append _ ds '.' (w :: rest) hdig (by decide)
    have hdrop : (ds ++ ['.'] ++ (w :: rest)).dropWhile isPyDigit = '.' :: (w :: rest) := by
      rw [hassoc]
      exact dropWhile_all_append _ ds '.' (w :: rest) hdig (by decide)
    simp only [trackNumberMatchWith, htake, hdrop, if_neg hne]
    simp only [afterDigitsWith, if_pos rfl, if_pos hw]
    simp

theorem trackNumberMatch_some (s p : List Char)
    (h : trackNumberMatchWith isPySpaceB s = some p) :
    ∃ ds opt w rest, s = ds ++ opt ++ (w :: rest) ∧ ds ≠ [] ∧
      (∀ c ∈ ds, isPyDigit c = true) ∧ (opt = [] ∨ opt = ['.']) ∧ isPySpaceB w = true ∧
      p = ds ++ opt ++ [w] := by
  have hsplit : s.takeWhile isPyDigit ++ s.dropWhile isPyDigit = s :=
    List.takeWhile_append_dropWhile isPyDigit s
  have hdigits : ∀ c ∈ s.takeWhile isPyDigit, isPyDigit c = true :=
    fun c hc => List.mem_takeWhile_imp hc
  simp only [trackNumberMatchWith] at h
  by_cases hds : s.takeWhile isPyDigit = []
  · rw [if_pos hds] at h
    exact Option.noConfusion h
  rw [if_neg hds] at h
  rcases hd : s.dropWhile isPyDigit with _ | ⟨c, rest0⟩
  · rw [hd] at h
    simp [afterDigitsWith] at h
  have hs : s = s.takeWhile isPyDigit ++ (c :: rest0) := by
    conv_lhs => rw [← hsplit]
    rw [hd]
  rw [hd] at h
  by_cases hcdot : c = '.'
  · subst hcdot
    rcases rest0 with _ | ⟨w, rest1⟩
    · simp [afterDigitsWith, (by decide : isPySpaceB '.' = false)] at h
    by_cases hw : isPySpaceB w = true
    · have ha : afterDigitsWith isPySpaceB ('.' :: w :: rest1) = some ['.', w] := by
        simp [afterDigitsWith, hw]
      rw [ha] at h
      simp only [Option.some.injEq] at h
      refine ⟨s.takeWhile isPyDigit, ['.'], w, rest1, ?_, hds, hdigits, Or.inr rfl, hw, ?_⟩
      · conv_lhs => rw [hs]
        simp
      · rw [← h]
        simp
    · have hwf : isPySpaceB w = false := by
        cases hb : isPySpaceB w
        · rfl
        · exact absurd hb hw
      simp [afterDigitsWith, hwf, (by decide : isPySpaceB '.' = false)] at h
  · by_cases hc : isPySpaceB c = true
    · have ha : afterDigitsWith isPySpaceB (c :: rest0) = some [c] := by
        simp [afterDigitsWith, if_neg hcdot, hc]
      rw [ha] at h
      simp only [Option.some.injEq] at h
      refine ⟨s.takeWhile isPyDigit, [], c, rest0, ?_, hds, hdigits, Or.inl rfl, hc, ?_⟩
      · conv_lhs => rw [hs]
        simp
      · rw [← h]
        simp
    · have hcf : isPySpaceB c = false := by
        cases hb : isPySpaceB c
        · rfl
        · exact absurd hb hc
      simp [afterDigitsWith, hcf, if_neg hcdot] at h

theorem trackNumberMatch_none (s : List Char)
    (h : trackNumberMatchWith isPySpaceB s = none) :
    ¬ ∃ ds opt w rest, s = ds ++ opt ++ (w :: rest) ∧ ds ≠ [] ∧
      (∀ c ∈ ds, isPyDigit c = true) ∧ (opt = [] ∨ opt = ['.']) ∧ isPySpaceB w = true := by
  rintro ⟨ds, opt, w, rest, rfl, hne, hdig, hopt, hw⟩
  rw [trackNumberMatch_of_decomp ds opt w rest hne hdig hopt hw] at h
  exact Option.noConfusion h

/-! ### Scan and rename lemmas -/

theorem scan_mem (entries : List (String × Bool)) (base_bpm : ℚ) :
    ∀ (tracks : List TrackInfo), scan_directory entries base_bpm = some tracks →
    ∀ r ∈ tracks, calculate_pitch_adjustment r.bpm base_bpm = some r.pitch_adjustment ∧
      r.new_name = generate_new_filename r.original_name r.pitch_adjustment := by
  induction entries with
  | nil =>
    intro tracks h r hr
    simp only [scan_directory, Option.some.injEq] at h
    subst h
    simp at hr
  | cons e rest ih =>
    obtain ⟨name, is_file⟩ := e
    intro tracks h r hr
    simp only [scan_directory] at h
    split_ifs at h with hf
    · exact ih tracks h r hr
    · split at h
      · exact ih tracks h r hr
      · rename_i n hb
        split at h
        · exact Option.noConfusion h
        · rename_i adj hc
          split at h
          · exact Option.noConfusion h
          · rename_i ts hsc
            simp only [Option.some.injEq] at h
            subst h
            rcases List.mem_cons.mp hr with rfl | hmem
            · exact ⟨hc, rfl⟩
            · exact ih ts hsc r hmem

/-! ### Claims -/

/-- Claim C6: for every list of records, `rename_tracks` with `dry_run = true`
performs no filesystem rename (the filesystem state is returned unchanged)
and returns a count equal to the number of records in the list. -/
theorem rename_tracks_dry_run_frame {σ : Type} (op : σ → String → String → Option σ)
    (tracks : List TrackInfo) (fs : σ) :
    rename_tracks op tracks true fs = (tracks.length, fs) := by
  induction tracks with
  | nil => rfl
  | cons t ts ih => simp [rename_tracks, ih]

/-- Claim C7: with `dry_run = false`, a rename failure on one record is caught
and does not abort the remaining records: the outcome trace covers every
record, and the returned count equals the number of records whose rename
succeeded. -/
theorem rename_tracks_failures_isolated {σ : Type} (op : σ → String → String → Option σ)
    (tracks : List TrackInfo) (fs : σ) :
    (renameOutcomes op tracks fs).length = tracks.length ∧
    (rename_tracks op tracks false fs).1 = (renameOutcomes op tracks fs).count true := by
  induction tracks generalizing fs with
  | nil => simp [rename_tracks, renameOutcomes]
  | cons t ts ih =>
    rcases hop : op fs t.original_path t.new_name with _ | fs'
    · constructor
      · simp [renameOutcomes, hop, (ih fs).1]
      · simp [rename_tracks, renameOutcomes, hop, (ih fs).2]
    · constructor
      · simp [renameOutcomes, hop, (ih fs').1]
      · simp [rename_tracks, renameOutcomes, hop, (ih fs').2]

/-- Claim C9: `main` exits 0 on success and when no file matches, and exits 1
with the filesystem untouched when the directory is missing, is not a
directory, or the base BPM is non-positive. -/
theorem main_exit_codes {σ : Type} (op : σ → String → String → Option σ)
    (dir_exists dir_is_dir : Bool) (base_bpm : ℚ) (entries : List (String × Bool))
    (dry_run : Bool) (fs : σ) :
    ((dir_exists = false ∨ dir_is_dir = false ∨ base_bpm ≤ 0) →
      BeatmatchEncoder.main op dir_exists dir_is_dir base_bpm entries dry_run fs = some (1, fs)) ∧
    (dir_exists = true → dir_is_dir = true → 0 < base_bpm →
      ∀ tracks, scan_directory entries base_bpm = some tracks →
      ∃ fs2, BeatmatchEncoder.main op dir_exists dir_is_dir base_bpm entries dry_run fs
        = some (0, fs2)) := by
  constructor
  · rintro (h | h | h)
    · simp [BeatmatchEncoder.main, h]
    · by_cases he : dir_exists = false
      · simp [BeatmatchEncoder.main, he]
      · simp [BeatmatchEncoder.main, he, h]
    · by_cases he : dir_exists = false
      · simp [BeatmatchEncoder.main, he]
      · by_cases hd : dir_is_dir = false
        · simp [BeatmatchEncoder.main, he, hd]
        · simp [BeatmatchEncoder.main, he, hd, h]
  · intro he hd hb tracks hscan
    have hble : ¬ base_bpm ≤ 0 := not_le.mpr hb
    by_cases ht : tracks = []
    · exact ⟨fs, by simp [BeatmatchEncoder.main, he, hd, hble, hscan, ht]⟩
    · exact ⟨(rename_tracks op tracks dry_run fs).2,
        by simp [BeatmatchEncoder.main, he, hd, hble, hscan, ht]⟩

/-- Claim C2: for every positive BPM, applying `calculate_pitch_adjustment`
to two equal BPM values returns the literal string `"0"`. -/
theorem calc_equal_bpm_zero (bpm : ℚ) (h : 0 < bpm) :
    calculate_pitch_adjustment bpm bpm = some "0" := by
  simp [calculate_pitch_adjustment]

/-- Witness for C2 at `bpm = 128`. -/
theorem calc_equal_bpm_zero_witness :
    (0 : ℚ) < 128 ∧ calculate_pitch_adjustment 128 128 = some "0" :=
  ⟨by norm_num, calc_equal_bpm_zero 128 (by norm_num)⟩

/-- Claim C1: for unequal positive BPM values, `calculate_pitch_adjustment`
agrees with the §4.1 formula: percentage `(base - track) / track * 100`,
rounded to two decimal places, printed with a leading `+` when the
percentage is positive and with no added sign when it is negative. -/
theorem calc_matches_spec (t b : ℚ) (ht : 0 < t) (hb : 0 < b) (hne : t ≠ b) :
    calculate_pitch_adjustment t b = some (spec_pitch_adjustment t b) := by
  have hbt : ¬ b = t := fun hh => hne hh.symm
  have htz : ¬ t = 0 := ne_of_gt ht
  have hp0 : (b - t) / t * 100 ≠ 0 := fun h0 => hbt ((percentage_eq_zero_iff t b htz).mp h0)
  by_cases hpos : 0 < (b - t) / t * 100
  · rw [calc_pos_eval t b hbt htz hpos]
    simp only [spec_pitch_adjustment]
    rw [if_pos hpos]
  · have hneg : (b - t) / t * 100 < 0 := lt_of_le_of_ne (not_lt.mp hpos) hp0
    rw [calc_neg_eval t b hbt htz hpos]
    simp only [spec_pitch_adjustment]
    rw [if_neg hpos, if_pos hneg]

/-- Witness for C1 at track 130, base 125. -/
theorem calc_matches_spec_witness :
    (0 : ℚ) < 130 ∧ (0 : ℚ) < 125 ∧ (130 : ℚ) ≠ 125 ∧
    calculate_pitch_adjustment 130 125 = some (spec_pitch_adjustment 130 125) :=
  ⟨by norm_num, by norm_num, by norm_num,
    calc_matches_spec 130 125 (by norm_num) (by norm_num) (by norm_num)⟩

/-- Counterexample to claim C3 as stated: in the argument order of the §4.1
contract (track first), the first §8 example fails: the program returns
`"-3.85"` for track 130 against base 125, not `"+4.0"`. -/
theorem spec_examples_order_cex :
    ¬ (calculate_pitch_adjustment 130 125 = some "+4.0" ∧
       calculate_pitch_adjustment 130 140 = some "-7.14" ∧
       calculate_pitch_adjustment 130 128 = some "+1.56" ∧
       calculate_pitch_adjustment 130 100 = some "+30.0") := by
  intro hcl
  have h := calc_concrete_neg 130 125 (-385) ['-', '3', '.', '8', '5'] (by norm_num) (by norm_num)
    (by norm_num) (roundHalfEven_eq_of_close (-385) _ (by norm_num) (by norm_num))
    (by norm_num) (by decide)
  rw [hcl.1] at h
  exact absurd h (by decide)

/-- Claim C3 amended: the §8 examples list the base BPM first, so they hold
with the arguments swapped: track 125 against base 130 gives `"+4.0"`,
track 140 gives `"-7.14"`, track 128 gives `"+1.56"`, track 100 gives
`"+30.0"`. -/
theorem spec_examples_base_first :
    calculate_pitch_adjustment 125 130 = some "+4.0" ∧
    calculate_pitch_adjustment 140 130 = some "-7.14" ∧
    calculate_pitch_adjustment 128 130 = some "+1.56" ∧
    calculate_pitch_adjustment 100 130 = some "+30.0" :=
  ⟨calc_concrete_pos 125 130 400 ['4', '.', '0'] (by norm_num) (by norm_num) (by norm_num)
      (roundHalfEven_eq_of_close 400 _ (by norm_num) (by norm_num)) (by decide),
   calc_concrete_neg 140 130 (-714) ['-', '7', '.', '1', '4'] (by norm_num) (by norm_num)
      (by norm_num) (roundHalfEven_eq_of_close (-714) _ (by norm_num) (by norm_num))
      (by norm_num) (by decide),
   calc_concrete_pos 128 130 156 ['1', '.', '5', '6'] (by norm_num) (by norm_num) (by norm_num)
      (roundHalfEven_eq_of_close 156 _ (by norm_num) (by norm_num)) (by decide),
   calc_concrete_pos 100 130 3000 ['3', '0', '.', '0'] (by norm_num) (by norm_num) (by norm_num)
      (roundHalfEven_eq_of_close 3000 _ (by norm_num) (by norm_num)) (by decide)⟩

/-- Claim C10: `calculate_pitch_adjustment` returns `"0"` exactly when the
two BPM values are equal; for unequal positive BPM values whose percentage
rounds to zero at two decimal places, the result is `"+0.0"` for a positive
percentage (track slower than base) and `"-0.0"` for a negative one, never
`"0"`. -/
theorem calc_zero_iff_equal (t b : ℚ) (ht : 0 < t) (hb : 0 < b) :
    (calculate_pitch_adjustment t b = some "0" ↔ t = b) ∧
    (t ≠ b → roundHalfEven (100 * ((b - t) / t * 100)) = 0 →
      calculate_pitch_adjustment t b = some (if t < b then "+0.0" else "-0.0")) := by
  have htz : ¬ t = 0 := ne_of_gt ht
  constructor
  · constructor
    · intro h
      by_contra hne
      have hbt : ¬ b = t := fun hh => hne hh.symm
      have hzero : ("0" : String).data = ['0'] := rfl
      by_cases hpos : 0 < (b - t) / t * 100
      · rw [calc_pos_eval t b hbt htz hpos] at h
        simp only [Option.some.injEq] at h
        have hdata := congrArg String.data h
        rw [hzero] at hdata
        simp at hdata
      · rw [calc_neg_eval t b hbt htz hpos] at h
        simp only [Option.some.injEq] at h
        have hdata := congrArg String.data h
        rw [hzero] at hdata
        have hdot : '.' ∈ pyFloatStr2 ((b - t) / t * 100) := by
          simp only [pyFloatStr2]
          split_ifs
          · simp
          · exact dot_mem_formatHundredths _
        have hd2 : pyFloatStr2 ((b - t) / t * 100) = ['0'] := hdata
        rw [hd2] at hdot
        simp at hdot
    · intro h
      subst h
      simp [calculate_pitch_adjustment]
  · intro hne hz
    have hbt : ¬ b = t := fun hh => hne hh.symm
    have hp0 : (b - t) / t * 100 ≠ 0 := fun h0 => hbt ((percentage_eq_zero_iff t b htz).mp h0)
    rcases lt_or_gt_of_ne hne with hlt | hgt
    · have hpos : 0 < (b - t) / t * 100 := (percentage_pos_iff t b ht).mpr hlt
      rw [calc_pos_eval t b hbt htz hpos, if_pos hlt]
      have hstr : pyFloatStr2 ((b - t) / t * 100) = ['0', '.', '0'] := by
        rw [pyFloatStr2_of_pos _ hpos, hz]
        decide
      rw [hstr]
    · have hnpos : ¬ 0 < (b - t) / t * 100 :=
        fun hp => lt_asymm hgt ((percentage_pos_iff t b ht).mp hp)
      have hneg : (b - t) / t * 100 < 0 := lt_of_le_of_ne (not_lt.mp hnpos) hp0
      rw [calc_neg_eval t b hbt htz hnpos, if_neg (not_lt.mpr hgt.le)]
      rw [pyFloatStr2_neg_zero _ hz hneg]

/-- Witness for C10: equality at 130, and a rounds-to-zero pair. -/
theorem calc_zero_iff_equal_witness :
    (calculate_pitch_adjustment 130 130 = some "0" ↔ (130 : ℚ) = 130) ∧
    calculate_pitch_adjustment 100000 100001 = some "+0.0" := by
  constructor
  · exact (calc_zero_iff_equal 130 130 (by norm_num) (by norm_num)).1
  · have h := (calc_zero_iff_equal 100000 100001 (by norm_num) (by norm_num)).2 (by norm_num)
      (roundHalfEven_eq_of_close 0 _ (by norm_num) (by norm_num))
    rw [if_pos (by norm_num : (100000 : ℚ) < 100001)] at h
    exact h

/-- Counterexample to claim C4 as stated: the claim describes the
track-number pattern as digits, an optional period, and exactly one space,
but the regex uses `\s`, which also matches a tab.  On the filename
`"1\tA"` the code treats `"1\t"` as a track-number and inserts the
adjustment after it, while the space-only reading prepends it. -/
theorem compose_space_only_cex :
    generate_new_filename ⟨['1', '\t', 'A']⟩ "0" = ⟨['1', '\t', '(', '0', ')', ' ', 'A']⟩ ∧
    compose_space_only ⟨['1', '\t', 'A']⟩ "0" = ⟨['(', '0', ')', ' ', '1', '\t', 'A']⟩ ∧
    generate_new_filename ⟨['1', '\t', 'A']⟩ "0" ≠ compose_space_only ⟨['1', '\t', 'A']⟩ "0" :=
  ⟨by decide, by decide, by decide⟩

/-- Claim C4 amended: with the prefix pattern read as one or more decimal
digits, an optional period, and exactly one whitespace character (the
classes `\d` and `\s` of the regex, embedded by their exact Unicode
tables), `generate_new_filename` inserts the adjustment after the prefix
when one is present and prepends it otherwise. -/
theorem generate_new_filename_spec (name adj : String) :
    (∃ ds opt w rest, name.data = ds ++ opt ++ (w :: rest) ∧ ds ≠ [] ∧
        (∀ c ∈ ds, isPyDigit c = true) ∧ (opt = [] ∨ opt = ['.']) ∧ isPySpaceB w = true ∧
        (generate_new_filename name adj).data =
          (ds ++ opt ++ [w]) ++ '(' :: adj.data ++ ')' :: ' ' :: rest)
    ∨ ((¬ ∃ ds opt w rest, name.data = ds ++ opt ++ (w :: rest) ∧ ds ≠ [] ∧
        (∀ c ∈ ds, isPyDigit c = true) ∧ (opt = [] ∨ opt = ['.']) ∧ isPySpaceB w = true) ∧
        (generate_new_filename name adj).data = '(' :: adj.data ++ ')' :: ' ' :: name.data) := by
  rcases hm : trackNumberMatchWith isPySpaceB name.data with _ | p
  · right
    refine ⟨trackNumberMatch_none name.data hm, ?_⟩
    simp [generate_new_filename, composeWith, hm]
  · left
    obtain ⟨ds, opt, w, rest, hseq, hne, hdig, hopt, hw, hp⟩ :=
      trackNumberMatch_some name.data p hm
    refine ⟨ds, opt, w, rest, hseq, hne, hdig, hopt, hw, ?_⟩
    have hdataeq : (generate_new_filename name adj).data =
        p ++ '(' :: adj.data ++ ')' :: ' ' :: name.data.drop p.length := by
      simp [generate_new_filename, composeWith, hm]
    have hgrp : name.data = (ds ++ opt ++ [w]) ++ rest := by
      rw [hseq]; simp
    rw [hdataeq, hp, hgrp, List.drop_left]

/-- Concrete evaluation of a one-file scan, shared by the witnesses. -/
theorem scan_example_eval :
    scan_directory [("01. A - 125.mp3", true)] 130 =
      some [⟨"01. A - 125.mp3", "01. A - 125.mp3", ((125 : ℕ) : ℚ), "+4.0",
        "01. (+4.0) A - 125.mp3"⟩] := by
  have hb : bpmSearch ("01. A - 125.mp3".data) = some 125 := by decide
  have hcast : ((125 : ℕ) : ℚ) = (125 : ℚ) := by norm_num
  have hc : calculate_pitch_adjustment ((125 : ℕ) : ℚ) 130 = some "+4.0" := by
    rw [hcast]
    exact calc_concrete_pos 125 130 400 ['4', '.', '0'] (by norm_num) (by norm_num) (by norm_num)
      (roundHalfEven_eq_of_close 400 _ (by norm_num) (by norm_num)) (by decide)
  have hg : generate_new_filename "01. A - 125.mp3" "+4.0" = "01. (+4.0) A - 125.mp3" := by decide
  simp only [scan_directory, hb, hc, hg]
  simp

/-- Claim C5: every record produced by `scan_directory` has its new name
derived by `generate_new_filename` from its original name and adjustment,
and its adjustment computed by `calculate_pitch_adjustment` from its BPM
and the base BPM; records are plain immutable values built once. -/
theorem scan_records_derivable (entries : List (String × Bool)) (base_bpm : ℚ)
    (tracks : List TrackInfo) (h : scan_directory entries base_bpm = some tracks) :
    ∀ r ∈ tracks, r.new_name = generate_new_filename r.original_name r.pitch_adjustment ∧
      calculate_pitch_adjustment r.bpm base_bpm = some r.pitch_adjustment :=
  fun r hr => ⟨(scan_mem entries base_bpm tracks h r hr).2,
    (scan_mem entries base_bpm tracks h r hr).1⟩

/-- Witness for C5 on a one-file directory. -/
theorem scan_records_derivable_witness :
    ("01. (+4.0) A - 125.mp3" : String) =
      generate_new_filename "01. A - 125.mp3" "+4.0" ∧
    calculate_pitch_adjustment ((125 : ℕ) : ℚ) 130 = some "+4.0" :=
  scan_records_derivable [("01. A - 125.mp3", true)] 130
    [⟨"01. A - 125.mp3", "01. A - 125.mp3", ((125 : ℕ) : ℚ), "+4.0", "01. (+4.0) A - 125.mp3"⟩]
    scan_example_eval _ (List.mem_singleton.mpr rfl)

/-- Counterexample to claim C8 as stated: a scan stores the adjustment
`"+4.0"`, which is neither `"0"` nor a signed decimal with exactly two
fraction digits (it has one). -/
theorem adjustment_two_digits_cex :
    scan_directory [("01. A - 125.mp3", true)] 130 =
      some [⟨"01. A - 125.mp3", "01. A - 125.mp3", ((125 : ℕ) : ℚ), "+4.0",
        "01. (+4.0) A - 125.mp3"⟩] ∧
    ¬ (("+4.0" : String) = "0" ∨
       (isSignedDec ("+4.0" : String).data = true ∧ fracCount ("+4.0" : String).data = 2)) :=
  ⟨scan_example_eval, by decide⟩

/-- Claim C8 amended: every pitch-adjustment string stored in a record
whose rounded percentage stays below 10^16 in magnitude (the regime in
which Python `str` prints a plain decimal rather than scientific
notation; the bound is 10^18 in hundredths) is the literal `"0"` or a
signed decimal with a leading `+` or `-` and one or two fraction digits. -/
theorem scan_adjustment_format (entries : List (String × Bool)) (base_bpm : ℚ)
    (tracks : List TrackInfo) (h : scan_directory entries base_bpm = some tracks) :
    ∀ r ∈ tracks,
      (roundHalfEven (100 * ((base_bpm - r.bpm) / r.bpm * 100))).natAbs < 10 ^ 18 →
      r.pitch_adjustment = "0" ∨
        (isSignedDec r.pitch_adjustment.data = true ∧
          (fracCount r.pitch_adjustment.data = 1 ∨ fracCount r.pitch_adjustment.data = 2)) :=
  fun r hr _ => calc_format r.bpm base_bpm r.pitch_adjustment
    (scan_mem entries base_bpm tracks h r hr).1

/-- Witness for the amended C8 on a one-file directory. -/
theorem scan_adjustment_format_witness :
    ("+4.0" : String) = "0" ∨
      (isSignedDec ("+4.0" : String).data = true ∧
        (fracCount ("+4.0" : String).data = 1 ∨ fracCount ("+4.0" : String).data = 2)) :=
  scan_adjustment_format [("01. A - 125.mp3", true)] 130
    [⟨"01. A - 125.mp3", "01. A - 125.mp3", ((125 : ℕ) : ℚ), "+4.0", "01. (+4.0) A - 125.mp3"⟩]
    scan_example_eval _ (List.mem_singleton.mpr rfl)
    (by
      show (roundHalfEven (100 * ((130 - ((125 : ℕ) : ℚ)) / ((125 : ℕ) : ℚ) * 100))).natAbs
        < 10 ^ 18
      have hcast : ((125 : ℕ) : ℚ) = (125 : ℚ) := by norm_num
      rw [hcast, roundHalfEven_eq_of_close 400 _ (by norm_num) (by norm_num)]
      norm_num)

/-- Witness for C9: a missing directory exits 1 without touching the
filesystem, and a valid configuration with one matching file exits 0. -/
theorem main_exit_codes_witness :
    BeatmatchEncoder.main listRenameOp false true 130 [("01. A - 125.mp3", true)] false
      ["01. A - 125.mp3"] = some (1, ["01. A - 125.mp3"]) ∧
    (∃ fs2, BeatmatchEncoder.main listRenameOp true true 130 [("01. A - 125.mp3", true)] false
      ["01. A - 125.mp3"] = some (0, fs2)) :=
  ⟨(main_exit_codes listRenameOp false true 130 [("01. A - 125.mp3", true)] false
      ["01. A - 125.mp3"]).1 (Or.inl rfl),
   (main_exit_codes listRenameOp true true 130 [("01. A - 125.mp3", true)] false
      ["01. A - 125.mp3"]).2 rfl rfl (by norm_num) _ scan_example_eval⟩
